import Mathlib

/-!
Verification of the CIRISGUI client against its specification.

This file gives a shallow embedding of the parts of the code that the
specification talks about:

* the Task/Thought aggregator of `apps/agui/app/billing/page.tsx`
  (`processBatchedEvents`), modelled with an explicit object heap so that
  the in-place mutation of `TrackedTask` objects through the snapshot map
  is visible;
* the SSE stream reader of the same file (`connectStream`): incremental
  UTF-8 byte decoding, line buffering and `event:` / `data:` framing;
* the record handler `processSSEEvent` with its silent drop of malformed
  JSON payloads;
* the native-auth redirect guard of `apps/agui/contexts/AuthContext.tsx`
  (`checkNativeAuth` / `doSetupRedirect`) over an explicit storage state;
* `hasRole` from the same context;
* the billing metadata tagging of `apps/agui/lib/ciris-proxy.ts`
  (`chat` / `chatStream` / `generateInteractionId`).

JavaScript numbers that only ever hold integers (timestamps, indices) are
modelled as `Int`/`Nat`; JSON numbers are modelled as integers, which covers
every payload the claims mention.  JavaScript `Map`s are modelled as
insertion-ordered association lists with `Map.set` semantics.
-/

/-! ### JavaScript primitive helpers -/

/-- `Map.get` on an insertion-ordered association list (first binding wins;
JS `Map` keys are unique so there is at most one). -/
def jsMapGet {α : Type} (m : List (String × α)) (k : String) : Option α :=
  match m with
  | [] => none
  | (k1, v) :: rest => if k1 = k then some v else jsMapGet rest k

/-- `Map.set`: replace the value of an existing key in place (keeping its
insertion position), otherwise append the new binding at the end. -/
def jsMapSet {α : Type} (m : List (String × α)) (k : String) (v : α) :
    List (String × α) :=
  match m with
  | [] => [(k, v)]
  | (k1, v1) :: rest =>
    if k1 = k then (k, v) :: rest else (k1, v1) :: jsMapSet rest k v

/-- `a.startsWith(b)` on character lists (first argument is the whole). -/
def listStartsWith : List Char → List Char → Bool
  | _, [] => true
  | [], _ :: _ => false
  | a :: as, b :: bs => a = b && listStartsWith as bs

/-- Contiguous-sublist test, the semantics of JS `String.includes`. -/
def listHasSub : List Char → List Char → Bool
  | whole, sub =>
    listStartsWith whole sub ||
      match whole with
      | [] => false
      | _ :: rest => listHasSub rest sub

/-- JS `String.includes`. -/
def strIncludes (s sub : String) : Bool :=
  listHasSub s.toList sub.toList

/-- JS `String.startsWith`. -/
def strStartsWith (s sub : String) : Bool :=
  listStartsWith s.toList sub.toList

/-- Whitespace characters removed by `String.trim` (the ones that occur in
this code's inputs). -/
def isWsChar (c : Char) : Bool :=
  c = ' ' || c = '\t' || c = '\n' || c = '\r'

/-- JS `String.trim` on a character list. -/
def trimList (l : List Char) : List Char :=
  ((l.dropWhile isWsChar).reverse.dropWhile isWsChar).reverse

/-- `buffer.split("\n")`: always returns at least one (possibly empty)
fragment; fragments contain no newline. -/
def splitNl : List Char → List (List Char)
  | [] => [[]]
  | c :: rest =>
    match splitNl rest with
    | [] => [[]]
    | l :: ls => if c = '\n' then [] :: l :: ls else (c :: l) :: ls

/-- Decimal value of a digit list (the digits have been checked). -/
def digitsToNat : List Char → Nat
  | [] => 0
  | c :: rest => digitsToNat rest + c.toNat.sub 48 * 10 ^ rest.length

/-- JS `parseInt(s, 10)`: skip leading whitespace, optional sign, then the
longest digit run; `none` models `NaN` (no digits at all). -/
def jsParseInt (s : String) : Option Int :=
  let cs := s.toList.dropWhile isWsChar
  let signed : Bool × List Char :=
    match cs with
    | c :: rest =>
      if c = '-' then (true, rest)
      else if c = '+' then (false, rest) else (false, cs)
    | [] => (false, [])
  let ds := signed.2.takeWhile Char.isDigit
  if ds.isEmpty then none
  else some ((if signed.1 then (-1 : Int) else 1) * (digitsToNat ds : Int))

/-! ### JSON values and `JSON.parse`

`JSON.parse` is a platform primitive; it is embedded here as a recursive
descent parser over the JSON grammar.  Numbers are modelled as integers
(no payload in this repository's claims carries a fractional number). -/

inductive Json where
  | null : Json
  | bool (b : Bool) : Json
  | num (n : Int) : Json
  | str (s : String) : Json
  | arr (elems : List Json) : Json
  | obj (fields : List (String × Json)) : Json
deriving Repr

/-- JS truthiness of a JSON value. -/
def jsTruthy : Json → Bool
  | .null => false
  | .bool b => b
  | .num n => n != 0
  | .str s => s != ""
  | .arr _ => true
  | .obj _ => true

/-- Escape decoding for one JSON string escape character (after `\`). -/
def jsonEscChar (c : Char) : Option Char :=
  if c = 'n' then some '\n'
  else if c = 't' then some '\t'
  else if c = 'r' then some '\r'
  else if c = 'b' then some (Char.ofNat 8)
  else if c = 'f' then some (Char.ofNat 12)
  else if c = '"' then some '"'
  else if c = '\\' then some '\\'
  else if c = '/' then some '/'
  else none

/-- Hex digit value. -/
def hexVal (c : Char) : Option Nat :=
  if '0' ≤ c ∧ c ≤ '9' then some (c.toNat - 48)
  else if 'a' ≤ c ∧ c ≤ 'f' then some (c.toNat - 87)
  else if 'A' ≤ c ∧ c ≤ 'F' then some (c.toNat - 55)
  else none

/-- Parse the body of a JSON string literal (after the opening quote),
returning the decoded characters and the rest of the input.  Fuelled so the
recursion is visibly terminating. -/
def parseStrBody : Nat → List Char → Option (List Char × List Char)
  | 0, _ => none
  | _ + 1, [] => none
  | fuel + 1, c :: rest =>
    if c = '"' then some ([], rest)
    else if c = '\\' then
      match rest with
      | [] => none
      | e :: rest2 =>
        if e = 'u' then
          match rest2 with
          | h1 :: h2 :: h3 :: h4 :: rest3 =>
            match hexVal h1, hexVal h2, hexVal h3, hexVal h4 with
            | some a, some b, some c3, some d =>
              match parseStrBody fuel rest3 with
              | some (cs, rem) =>
                some (Char.ofNat (a * 4096 + b * 256 + c3 * 16 + d) :: cs, rem)
              | none => none
            | _, _, _, _ => none
          | _ => none
        else
          match jsonEscChar e with
          | some d =>
            match parseStrBody fuel rest2 with
            | some (cs, rem) => some (d :: cs, rem)
            | none => none
          | none => none
    else
      match parseStrBody fuel rest with
      | some (cs, rem) => some (c :: cs, rem)
      | none => none

/-- Skip JSON whitespace. -/
def skipWs (cs : List Char) : List Char :=
  cs.dropWhile isWsChar

/-- Parse an integer JSON number (optional minus, digit run). -/
def parseJsonNum (cs : List Char) : Option (Int × List Char) :=
  let signed : Bool × List Char :=
    match cs with
    | c :: rest => if c = '-' then (true, rest) else (false, cs)
    | [] => (false, [])
  let ds := signed.2.takeWhile Char.isDigit
  if ds.isEmpty then none
  else
    some ((if signed.1 then (-1 : Int) else 1) * (digitsToNat ds : Int),
      signed.2.drop ds.length)

mutual

/-- Parse one JSON value.  Fuel decreases on every nesting recursion; the
wrapper supplies enough fuel for any input. -/
def parseJsonVal : Nat → List Char → Option (Json × List Char)
  | 0, _ => none
  | fuel + 1, cs =>
    match skipWs cs with
    | [] => none
    | c :: rest =>
      if c = 'n' then
        if listStartsWith rest ['u', 'l', 'l'] then
          some (Json.null, rest.drop 3)
        else none
      else if c = 't' then
        if listStartsWith rest ['r', 'u', 'e'] then
          some (Json.bool true, rest.drop 3)
        else none
      else if c = 'f' then
        if listStartsWith rest ['a', 'l', 's', 'e'] then
          some (Json.bool false, rest.drop 4)
        else none
      else if c = '"' then
        match parseStrBody (rest.length + 1) rest with
        | some (cs2, rem) => some (Json.str (String.mk cs2), rem)
        | none => none
      else if c = Char.ofNat 91 then
        match skipWs rest with
        | d :: rest2 =>
          if d = Char.ofNat 93 then some (Json.arr [], rest2)
          else
            match parseJsonArrItems fuel (skipWs rest) with
            | some (els, rem) => some (Json.arr els, rem)
            | none => none
        | [] => none
      else if c = Char.ofNat 123 then
        match skipWs rest with
        | d :: rest2 =>
          if d = Char.ofNat 125 then some (Json.obj [], rest2)
          else
            match parseJsonObjItems fuel (skipWs rest) with
            | some (fs, rem) => some (Json.obj fs, rem)
            | none => none
        | [] => none
      else
        match parseJsonNum (c :: rest) with
        | some (n, rem) => some (Json.num n, rem)
        | none => none

/-- Parse the comma-separated items of a JSON array, up to and including
the closing bracket. -/
def parseJsonArrItems : Nat → List Char → Option (List Json × List Char)
  | 0, _ => none
  | fuel + 1, cs =>
    match parseJsonVal fuel cs with
    | none => none
    | some (v, rem) =>
      match skipWs rem with
      | d :: rest =>
        if d = ',' then
          match parseJsonArrItems fuel rest with
          | some (vs, rem2) => some (v :: vs, rem2)
          | none => none
        else if d = Char.ofNat 93 then some ([v], rest)
        else none
      | [] => none

/-- Parse the comma-separated members of a JSON object, up to and including
the closing brace. -/
def parseJsonObjItems : Nat → List Char → Option (List (String × Json) × List Char)
  | 0, _ => none
  | fuel + 1, cs =>
    match skipWs cs with
    | c :: rest =>
      if c = '"' then
        match parseStrBody (rest.length + 1) rest with
        | some (kcs, rem) =>
          match skipWs rem with
          | d :: rest2 =>
            if d = ':' then
              match parseJsonVal fuel rest2 with
              | some (v, rem2) =>
                match skipWs rem2 with
                | e :: rest3 =>
                  if e = ',' then
                    match parseJsonObjItems fuel rest3 with
                    | some (fs, rem3) => some ((String.mk kcs, v) :: fs, rem3)
                    | none => none
                  else if e = Char.ofNat 125 then
                    some ([(String.mk kcs, v)], rest3)
                  else none
                | [] => none
              | none => none
            else none
          | [] => none
        | none => none
      else none
    | [] => none

end

/-- `JSON.parse`: parse one value and require the rest of the input to be
whitespace; `none` models a thrown `SyntaxError`. -/
def jsonParse (s : String) : Option Json :=
  match parseJsonVal (s.length + 1) s.toList with
  | some (v, rem) => if (skipWs rem).isEmpty then some v else none
  | none => none

/-! ### Task/Thought aggregator (`processBatchedEvents` in `billing/page.tsx`)

The JavaScript code copies the top-level `Map` (`new Map(prev)`) and then
mutates the `TrackedTask` objects it finds in it.  To make that aliasing
expressible, `TrackedTask` objects live on an explicit heap (a list indexed
by allocation order); the snapshot map binds a `task_id` to a heap address.
A whole task object, together with its (unshared) thought array and stage
maps, sits at one address; `task.thoughts.push`, `thought.stages.set` and
`task.completed = true` all become writes at that address. -/

/-- One queued stream event, as built by `queueEvent` (`data` holds the
whole event object delivered by the stream). -/
structure StreamEvent where
  event_type : String
  thought_id : String
  task_id : String
  data : List (String × Json)
  timestamp : String

/-- A recorded stage (`ThoughtStage` in the source). -/
structure ThoughtStage where
  event_type : String
  completed : Bool
  data : List (String × Json)
  timestamp : String

/-- `TrackedThought`: a thought with its insertion-ordered stage map. -/
structure TrackedThought where
  thoughtId : String
  stages : List (String × ThoughtStage)

/-- `TrackedTask`.  The source declares `description: string`, but stores
`(data.task_description as string) || ""`, which at run time is whatever
truthy value the payload carried; it is therefore modelled as `Json`. -/
structure TrackedTask where
  taskId : String
  description : Json
  completed : Bool
  firstTimestamp : String
  thoughts : List TrackedThought

/-- Aggregator state: the snapshot map (task_id to heap address, a JS `Map`)
and the heap of `TrackedTask` objects, indexed by allocation order. -/
structure AggState where
  tasks : List (String × Nat)
  heap : List TrackedTask

/-- The empty aggregator state (`new Map()`). -/
def aggInit : AggState := { tasks := [], heap := [] }

/-- Heap read (`none` for a dangling address). -/
def heapGet (h : List TrackedTask) (a : Nat) : Option TrackedTask :=
  match h, a with
  | [], _ => none
  | t :: _, 0 => some t
  | _ :: rest, a + 1 => heapGet rest a

/-- Heap write (no-op on a dangling address, which never happens for
addresses produced by the aggregator itself). -/
def heapSet (h : List TrackedTask) (a : Nat) (t : TrackedTask) :
    List TrackedTask :=
  match h, a with
  | [], _ => []
  | _ :: rest, 0 => t :: rest
  | u :: rest, a + 1 => u :: heapSet rest a t

/-- `STAGE_NAMES` from the source. -/
def STAGE_NAMES : List String :=
  ["thought_start", "snapshot_and_context", "dma_results",
   "aspdma_result", "conscience_result", "action_result"]

/-- `(data.task_description as string) || ""`: the stored value if truthy,
otherwise the empty string. -/
def descOf (data : List (String × Json)) : Json :=
  match jsMapGet data "task_description" with
  | some v => if jsTruthy v then v else Json.str ""
  | none => Json.str ""

/-- `(data.action_executed as string)?.includes(sub)`: `false` when the
field is absent or not a string (absent/null short-circuits via `?.`). -/
def jsFieldIncludes (data : List (String × Json)) (k sub : String) : Bool :=
  match jsMapGet data k with
  | some (Json.str s) => strIncludes s sub
  | _ => false

/-- The terminal-action test guarding `task.completed = true`. -/
def isTerminalEvent (e : StreamEvent) : Bool :=
  e.event_type = "action_result" &&
    (jsFieldIncludes e.data "action_executed" "task_complete" ||
     jsFieldIncludes e.data "action_executed" "task_reject")

/-- The stage record stored by `thought.stages.set`. -/
def mkStageRec (e : StreamEvent) : ThoughtStage :=
  { event_type := e.event_type, completed := true,
    data := e.data, timestamp := e.timestamp }

/-- Update the first thought with the given id (the one `find` returns);
this is what mutating the object returned by `find` does. -/
def updateFirstThought (l : List TrackedThought) (tid : String)
    (f : TrackedThought → TrackedThought) : List TrackedThought :=
  match l with
  | [] => []
  | th :: rest =>
    if th.thoughtId = tid then f th :: rest
    else th :: updateFirstThought rest tid f

/-- The stage-map write performed on the thought returned by `find` /
pushed by the loop body. -/
def setStageFor (e : StreamEvent) (th : TrackedThought) : TrackedThought :=
  { th with stages := jsMapSet th.stages e.event_type (mkStageRec e) }

/-- The three in-place mutations the loop body applies to the (found or
freshly created) task object: ensure the thought exists (`find` /
`thoughts.push`), store the stage under its name if it is a known stage
(`thought.stages.set`), and raise `completed` on a terminal
`action_result`. -/
def updateTaskForEvent (e : StreamEvent) (task : TrackedTask) : TrackedTask :=
  let task1 :=
    if (task.thoughts.find? (fun t => t.thoughtId = e.thought_id)).isSome
    then task
    else { task with thoughts :=
             task.thoughts ++ [{ thoughtId := e.thought_id, stages := [] }] }
  let task2 :=
    if STAGE_NAMES.contains e.event_type then
      { task1 with thoughts :=
          updateFirstThought task1.thoughts e.thought_id (setStageFor e) }
    else task1
  if isTerminalEvent e then { task2 with completed := true } else task2

/-- The fresh task object created when `task_id` is not yet in the map. -/
def newTaskFor (e : StreamEvent) : TrackedTask :=
  { taskId := e.task_id, description := descOf e.data,
    completed := false, firstTimestamp := e.timestamp, thoughts := [] }

/-- Process one queued event, the body of the `for` loop of
`processBatchedEvents`: skip on a missing (empty-string) id, get or create
the task object, then mutate it through its heap address. -/
def processEvent (s : AggState) (e : StreamEvent) : AggState :=
  if e.thought_id = "" ∨ e.task_id = "" then s
  else
    let found := jsMapGet s.tasks e.task_id
    let addr := match found with | some a => a | none => s.heap.length
    let s1 : AggState :=
      match found with
      | some _ => s
      | none =>
        { tasks := jsMapSet s.tasks e.task_id addr,
          heap := s.heap ++ [newTaskFor e] }
    match heapGet s1.heap addr with
    | none => s1
    | some task =>
      { s1 with heap := heapSet s1.heap addr (updateTaskForEvent e task) }

/-- Apply one flushed batch: the loop of `processBatchedEvents`.  (The
`new Map(prev)` copy is the identity on this representation; the prior
map value is never written through.) -/
def applyBatch (s : AggState) (events : List StreamEvent) : AggState :=
  events.foldl processEvent s

/-- The `completed` flag of the task object at heap address `a` (`false`
off the heap). -/
def heapCompleted (s : AggState) (a : Nat) : Bool :=
  match heapGet s.heap a with
  | some t => t.completed
  | none => false

/-- The description of the task object at heap address `a`. -/
def taskDescAt (s : AggState) (a : Nat) : Option Json :=
  match heapGet s.heap a with
  | some t => some t.description
  | none => none

/-- The stage-map keys of thought `tid` of task `taskId` in a snapshot. -/
def stageKeys (s : AggState) (taskId tid : String) : List String :=
  match jsMapGet s.tasks taskId with
  | none => []
  | some a =>
    match heapGet s.heap a with
    | none => []
    | some t =>
      match t.thoughts.find? (fun th => th.thoughtId = tid) with
      | none => []
      | some th => th.stages.map (fun p => p.1)

/-! ### SSE stream reader (`connectStream` in `billing/page.tsx`)

The read loop receives byte chunks, decodes them with a stateful
`TextDecoder` (`decode(value, { stream: true })`), appends to a line
buffer, splits on `"\n"` keeping the unterminated tail, and feeds complete
lines to the `event:` / `data:` framing state. -/

/-- Incremental UTF-8 decoding: decode complete scalar sequences, keep an
incomplete trailing sequence as pending bytes.  Fuelled (every step consumes
at least one byte).  Malformed bytes decode to U+FFFD, consuming one byte —
a simplification of `TextDecoder`'s maximal-subpart recovery that agrees
with it on well-formed input, which is all the claims exercise. -/
def utf8DecodeGo : Nat → List Nat → List Char × List Nat
  | 0, bs => ([], bs)
  | _ + 1, [] => ([], [])
  | fuel + 1, b :: rest =>
    if b < 128 then
      let r := utf8DecodeGo fuel rest
      (Char.ofNat b :: r.1, r.2)
    else if b < 194 then
      -- stray continuation byte or overlong lead
      let r := utf8DecodeGo fuel rest
      (Char.ofNat 65533 :: r.1, r.2)
    else
      let need := if b < 224 then 1 else if b < 240 then 2 else 3
      let isCont := fun (x : Nat) => 128 ≤ x && x < 192
      let cont := rest.take need
      if cont.length < need && cont.all isCont then
        -- incomplete final sequence: buffer it for the next chunk
        ([], b :: rest)
      else if (cont.all isCont) && cont.length = need then
        let lead :=
          if b < 224 then b - 192 else if b < 240 then b - 224 else b - 240
        let code := cont.foldl (fun acc x => acc * 64 + (x - 128)) lead
        let r := utf8DecodeGo fuel (rest.drop need)
        (Char.ofNat code :: r.1, r.2)
      else
        let r := utf8DecodeGo fuel rest
        (Char.ofNat 65533 :: r.1, r.2)

/-- One `decoder.decode(chunk, { stream: true })` call: prepend the pending
bytes of the previous call, decode, and return text plus new pending tail. -/
def utf8Decode (pending chunk : List Nat) : List Char × List Nat :=
  utf8DecodeGo (pending.length + chunk.length) (pending ++ chunk)

/-- The `event:` / `data:` framing state mutated by the line loop: the
current event name, the accumulated data payload, and the records handed
to `processSSEEvent` so far. -/
structure FrameState where
  eventType : String
  eventData : String
  records : List (String × String)

/-- State of the read loop: decoder pending bytes, line buffer, framing
state. -/
structure ReaderState where
  pending : List Nat
  buffer : List Char
  frame : FrameState

/-- Initial reader state. -/
def readerInit : ReaderState :=
  { pending := [], buffer := [],
    frame := { eventType := "", eventData := "", records := [] } }

/-- Emit the pending record if both parts are non-empty (JS truthiness of
`eventType && eventData`). -/
def emitIfReady (st : FrameState) : FrameState :=
  if st.eventType != "" && st.eventData != "" then
    { st with records := st.records ++ [(st.eventType, st.eventData)] }
  else st

/-- Handle one complete line (the body of the `for (const line of lines)`
loop). -/
def processLine (st : FrameState) (line : List Char) : FrameState :=
  if listStartsWith line "event:".toList then
    let st1 := emitIfReady st
    { st1 with eventType := String.mk (trimList (line.drop 6)),
               eventData := "" }
  else if listStartsWith line "data:".toList then
    let newData := String.mk (trimList (line.drop 5))
    { st with eventData :=
        if st.eventData != "" then st.eventData ++ "\n" ++ newData
        else newData }
  else if line.isEmpty then
    let st1 := emitIfReady st
    if st.eventType != "" && st.eventData != "" then
      { st1 with eventType := "", eventData := "" }
    else st1
  else st

/-- Feed one decoded text chunk through the line buffering and framing:
append to the buffer, split on newlines keeping the unterminated tail,
then run the line loop over the complete lines. -/
def feedText (st : ReaderState) (s : List Char) : ReaderState :=
  let parts := splitNl (st.buffer ++ s)
  { st with frame := parts.dropLast.foldl processLine st.frame,
            buffer := parts.getLastD [] }

/-- One iteration of the read loop for a received byte chunk. -/
def feedBytes (st : ReaderState) (chunk : List Nat) : ReaderState :=
  let d := utf8Decode st.pending chunk
  feedText { st with pending := d.2 } d.1

/-- The whole read loop over a sequence of byte chunks. -/
def runReader (chunks : List (List Nat)) : ReaderState :=
  chunks.foldl feedBytes readerInit

/-! ### `processSSEEvent` and `queueEvent` (`billing/page.tsx`)

A decoded record of type `step_update` is `JSON.parse`d; on success its
`events` array is queued for the aggregator, one `StreamEvent` per element;
a parse failure is caught, logged, and dropped (the loop continues with the
next record).  The SDK delivers string-typed fields; absent or non-string
fields are modelled as `""` per the TypeScript field types. -/

/-- Property access `v.k` (JS yields `undefined` off objects). -/
def jsGetField (v : Json) (k : String) : Option Json :=
  match v with
  | .obj fields => jsMapGet fields k
  | _ => none

/-- A string field, `""` when absent or non-string. -/
def jsFieldStr (v : Json) (k : String) : String :=
  match jsGetField v k with
  | some (.str s) => s
  | _ => ""

/-- `event.timestamp || new Date().toISOString()` (the current time is a
parameter `nowIso`). -/
def jsFieldStrOr (v : Json) (k : String) (nowIso : String) : String :=
  match jsGetField v k with
  | some (.str s) => if s != "" then s else nowIso
  | _ => nowIso

/-- The queued event built by `queueEvent` for one element of the parsed
`events` array (`data: event` stores the whole event object). -/
def mkQueuedEvent (nowIso : String) (e : Json) : StreamEvent :=
  { event_type := jsFieldStr e "event_type",
    thought_id := jsFieldStr e "thought_id",
    task_id := jsFieldStr e "task_id",
    data := match e with | .obj fields => fields | _ => [],
    timestamp := jsFieldStrOr e "timestamp" nowIso }

/-- `processSSEEvent`: parse the data of a `step_update` record and queue
its events; a `JSON.parse` failure is caught and the pending queue is left
unchanged (nothing is re-thrown to the read loop). -/
def processSSEEvent (nowIso : String) (ty data : String)
    (pending : List StreamEvent) : List StreamEvent :=
  if ty = "step_update" then
    match jsonParse data with
    | none => pending
    | some v =>
      match jsGetField v "events" with
      | some (Json.arr evs) => pending ++ evs.map (mkQueuedEvent nowIso)
      | _ => pending
  else pending

/-- Folding a list of decoded records through `processSSEEvent`, as the
read loop does. -/
def processRecords (nowIso : String) (records : List (String × String))
    (pending : List StreamEvent) : List StreamEvent :=
  records.foldl (fun q r => processSSEEvent nowIso r.1 r.2 q) pending

/-! ### Native-auth redirect guard (`contexts/AuthContext.tsx`)

`checkNativeAuth` is embedded as a function of the browser storage (the
`localStorage` / `sessionStorage` keys it reads and writes) and an
environment of external outcomes (clock, current path, SDK auth state,
login result, setup-status API).  React state updates (`setUser`,
`setLoading`) and SDK configuration calls have no bearing on the embedded
claims and are not part of the state.  The result is the returned boolean,
the updated storage, and the list of navigations performed
(`window.location.href = "/setup"`). -/

/-- The storage keys read or written by `checkNativeAuth`,
`doSetupRedirect` and `checkSetupStatusFromAPI`.  `none` models an absent
key (`getItem` returning `null`). -/
structure Storage where
  isNativeApp : Option String
  ciris_native_auth : Option String
  ciris_auth_method : Option String
  ciris_show_setup : Option String
  ciris_access_token : Option String
  access_token : Option String
  ciris_redirect_in_progress : Option String
  ciris_last_redirect_time : Option String
  ciris_native_auth_complete : Option String
  ciris_native_auth_token : Option String
  selectedAgentId : Option String
  ciris_native_llm_mode : Option String
deriving Repr, DecidableEq

/-- Outcome of the `/v1/setup/status` fetch inside
`checkSetupStatusFromAPI`, abstracting the response JSON. -/
inductive SetupApiOutcome where
  | complete : SetupApiOutcome
  | required : SetupApiOutcome
  | unclear : SetupApiOutcome
  | fail : SetupApiOutcome
deriving Repr, DecidableEq

/-- External outcomes of one `checkNativeAuth` invocation. -/
structure AuthEnv where
  now : Int
  currentPath : String
  sdkAuthenticated : Bool
  loginResult : Option (Option String)
  setupApi : SetupApiOutcome
deriving Repr, DecidableEq

/-- `x || y` on nullable strings (empty string is falsy). -/
def jsOrStr (a b : Option String) : Option String :=
  match a with
  | some s => if s != "" then some s else b
  | none => b

/-- Truthiness of a nullable string. -/
def optStrTruthy (a : Option String) : Bool :=
  match a with
  | some s => s != ""
  | none => false

/-- `doSetupRedirect`: set the loop-guard keys and navigate to `/setup`. -/
def doSetupRedirect (now : Int) (s : Storage) : Storage × List String :=
  ({ s with ciris_redirect_in_progress := some "true",
            ciris_last_redirect_time := some (toString now) },
   ["/setup"])

/-- `checkSetupStatusFromAPI`, with the fetch outcome abstracted: a clear
"complete" answer also clears the `ciris_show_setup` flag; a failed fetch
falls back to that flag. -/
def checkSetupStatusFromAPI (env : AuthEnv) (s : Storage) : Bool × Storage :=
  match env.setupApi with
  | .complete => (false, { s with ciris_show_setup := some "false" })
  | .required => (true, s)
  | .unclear => (true, s)
  | .fail => (s.ciris_show_setup == some "true", s)

/-- The setup-redirect block that `checkNativeAuth` runs (three times, with
identical code) before returning `true`: consult the API when the setup
flag is up and the page is not already `/setup`; on a confirmed need,
record the LLM mode and redirect.  Only the session-restore occurrence
clears the flag when the API answers "complete" (`clearOnComplete`). -/
def setupRedirectBlock (env : AuthEnv) (s : Storage)
    (authMethod : Option String) (showSetupFlag clearOnComplete : Bool) :
    Storage × List String :=
  if showSetupFlag && !(strStartsWith env.currentPath "/setup") then
    let r := checkSetupStatusFromAPI env s
    if r.1 then
      let mode := if authMethod == some "google" then "ciris_proxy" else "custom"
      let s2 := { r.2 with ciris_native_llm_mode := some mode }
      doSetupRedirect env.now s2
    else
      (if clearOnComplete then { r.2 with ciris_show_setup := some "false" }
       else r.2, [])
  else (s, [])

/-- The part of `checkNativeAuth` after the session-restore block (reached
when that block is skipped or its `JSON.parse` throws): the in-memory SDK
check, then the fresh-login path with its mock-user fallback. -/
def checkNativeAuthLogin (env : AuthEnv) (s : Storage)
    (nativeAuthData : String) (authMethod : Option String)
    (showSetupFlag : Bool) : Bool × Storage × List String :=
  if env.sdkAuthenticated then (true, s, [])
  else
    match jsonParse nativeAuthData with
    | none => (false, s, [])
    | some _ =>
      let s1 := { s with selectedAgentId := some "datum" }
      match env.loginResult with
      | some token =>
        let s2 :=
          match token with
          | some t =>
            if t != "" then
              { s1 with ciris_native_auth_token := some t,
                        ciris_native_auth_complete := some "true" }
            else s1
          | none => s1
        let r := setupRedirectBlock env s2 authMethod showSetupFlag false
        (true, r.1, r.2)
      | none =>
        let s2 := { s1 with ciris_native_auth_complete := some "true" }
        let r := setupRedirectBlock env s2 authMethod showSetupFlag false
        (true, r.1, r.2)

/-- `checkNativeAuth`: the 5-second / in-progress redirect loop guard, then
native-auth detection, session restore from a persisted or injected token,
and the fresh-login fallback.  Returns (result, storage, navigations). -/
def checkNativeAuth (env : AuthEnv) (s : Storage) :
    Bool × Storage × List String :=
  let isNativeApp := s.isNativeApp == some "true"
  let showSetupFlag := s.ciris_show_setup == some "true"
  let authMethod := s.ciris_auth_method
  let injectedToken := jsOrStr s.ciris_access_token s.access_token
  let hasInjectedToken := optStrTruthy injectedToken
  let redirectInProgress := s.ciris_redirect_in_progress == some "true"
  let lastRedirectTime := jsParseInt (s.ciris_last_redirect_time.getD "0")
  let withinWindow :=
    match lastRedirectTime with
    | some t => env.now - t < 5000
    | none => false
  if redirectInProgress || withinWindow then (true, s, [])
  else if !(isNativeApp && optStrTruthy s.ciris_native_auth) then
    (false, s, [])
  else
    let nativeAuthData := s.ciris_native_auth.getD ""
    let nativeAuthComplete := s.ciris_native_auth_complete == some "true"
    let savedToken := s.ciris_native_auth_token
    let tokenToUse := jsOrStr injectedToken savedToken
    if (nativeAuthComplete || hasInjectedToken) && optStrTruthy tokenToUse
    then
      let s1 := { s with selectedAgentId := some "datum" }
      let s2 :=
        if hasInjectedToken then
          { s1 with ciris_native_auth_token := injectedToken,
                    ciris_native_auth_complete := some "true" }
        else s1
      match jsonParse nativeAuthData with
      | some _ =>
        let r := setupRedirectBlock env s2 authMethod showSetupFlag true
        (true, r.1, r.2)
      | none =>
        -- `JSON.parse` threw: clear the persisted-restore keys and fall
        -- through to the login path below the `if` block.
        let s3 := { s2 with ciris_native_auth_complete := none,
                            ciris_native_auth_token := none }
        checkNativeAuthLogin env s3 nativeAuthData authMethod showSetupFlag
    else
      checkNativeAuthLogin env s nativeAuthData authMethod showSetupFlag

/-! ### `hasRole` (`contexts/AuthContext.tsx`) -/

/-- The authenticated user, reduced to the field `hasRole` reads. -/
structure AuthUser where
  role : String
deriving Repr, DecidableEq

/-- `roleHierarchy` from the source. -/
def roleHierarchy : List String :=
  ["OBSERVER", "ADMIN", "AUTHORITY", "SYSTEM_ADMIN"]

/-- JS `Array.indexOf`: the index of the first occurrence, `-1` if absent. -/
def jsIndexOf (l : List String) (x : String) : Int :=
  match l with
  | [] => -1
  | a :: rest =>
    if a = x then 0
    else
      let r := jsIndexOf rest x
      if r = -1 then -1 else r + 1

/-- `hasRole`: `false` with no user, otherwise compare hierarchy indices
with `>=`. -/
def hasRole (user : Option AuthUser) (role : String) : Bool :=
  match user with
  | none => false
  | some u =>
    if jsIndexOf roleHierarchy u.role ≥ jsIndexOf roleHierarchy role
    then true else false

/-! ### Proxy client billing metadata (`lib/ciris-proxy.ts`)

`ChatRequest.metadata` is typed `{ interaction_id: string; [key: string]:
any }`, modelled as the required id plus the remaining fields.  `Date.now()`
and `Math.random().toString(36)` are parameters of the embedding. -/

/-- A chat message. -/
structure ChatMessage where
  role : String
  content : String
deriving Repr, DecidableEq

/-- The `metadata` object of a `ChatRequest`. -/
structure ChatMetadata where
  interaction_id : String
  extra : List (String × Json)

/-- A `ChatRequest`. -/
structure ChatRequest where
  model : Option String
  messages : List ChatMessage
  temperature : Option Int
  max_tokens : Option Int
  stream : Option Bool
  metadata : Option ChatMetadata

/-- `generateInteractionId`, parameterised by `Date.now()` and the
`Math.random().toString(36)` string (of which characters 2 to 11 are
taken). -/
def generateInteractionId (now : Int) (rand : String) : String :=
  "int_" ++ toString now ++ "_" ++ String.mk ((rand.toList.drop 2).take 9)

/-- The interaction-id tagging shared by `chat` and `chatStream`: when
`request.metadata?.interaction_id` is falsy (absent metadata, or an empty
id), replace the metadata with a spread copy carrying a fresh id. -/
def ensureInteractionId (now : Int) (rand : String) (req : ChatRequest) :
    ChatRequest :=
  let idTruthy :=
    match req.metadata with
    | some m => m.interaction_id != ""
    | none => false
  if idTruthy then req
  else
    let oldExtra :=
      match req.metadata with
      | some m => m.extra
      | none => []
    let m2 : ChatMetadata :=
      { interaction_id := generateInteractionId now rand, extra := oldExtra }
    { req with metadata := some m2 }

/-- The request body `chat` sends (`JSON.stringify(request)` after the
tagging). -/
def chatSentRequest (now : Int) (rand : String) (req : ChatRequest) :
    ChatRequest :=
  ensureInteractionId now rand req

/-- The request body `chatStream` sends (`{ ...request, stream: true }`
after the tagging). -/
def chatStreamSentRequest (now : Int) (rand : String) (req : ChatRequest) :
    ChatRequest :=
  { ensureInteractionId now rand req with stream := some true }

/-- The interaction id carried by a request body (`""` when absent, which
the sent bodies never are). -/
def sentInteractionId (req : ChatRequest) : String :=
  match req.metadata with
  | some m => m.interaction_id
  | none => ""

/-! ### Helper lemmas -/

theorem jsMapGet_jsMapSet_self {α : Type} (m : List (String × α)) (k : String)
    (v : α) : jsMapGet (jsMapSet m k v) k = some v := by
  induction m with
  | nil => simp [jsMapGet, jsMapSet]
  | cons p rest ih =>
    by_cases h : p.1 = k
    · simp [jsMapGet, jsMapSet, h]
    · simp [jsMapGet, jsMapSet, h, ih]

theorem jsMapGet_jsMapSet_ne {α : Type} (m : List (String × α)) (k k2 : String)
    (v : α) (h : k ≠ k2) :
    jsMapGet (jsMapSet m k v) k2 = jsMapGet m k2 := by
  induction m with
  | nil => simp [jsMapGet, jsMapSet, h]
  | cons p rest ih =>
    by_cases h1 : p.1 = k
    · simp [jsMapGet, jsMapSet, h1, h]
    · simp only [jsMapSet, h1, if_neg h1, jsMapGet]
      by_cases h2 : p.1 = k2 <;> simp [h2, ih]

theorem jsMapSet_eq_self_of_get {α : Type} (m : List (String × α))
    (k : String) (v : α) (h : jsMapGet m k = some v) :
    jsMapSet m k v = m := by
  induction m with
  | nil => simp [jsMapGet] at h
  | cons p rest ih =>
    by_cases h1 : p.1 = k
    · simp only [jsMapGet, if_pos h1] at h
      cases h
      simp only [jsMapSet, if_pos h1]
      rw [← h1]
    · simp only [jsMapGet, if_neg h1] at h
      simp [jsMapSet, h1, ih h]

theorem heapGet_lt_length (h : List TrackedTask) (a : Nat) (t : TrackedTask)
    (hg : heapGet h a = some t) : a < h.length := by
  induction h generalizing a with
  | nil => simp [heapGet] at hg
  | cons u rest ih =>
    cases a with
    | zero => simp
    | succ b =>
      simp only [heapGet] at hg
      have := ih b hg
      simpa [Nat.succ_lt_succ_iff] using this

theorem heapGet_none_of_ge (h : List TrackedTask) (a : Nat)
    (ha : h.length ≤ a) : heapGet h a = none := by
  induction h generalizing a with
  | nil => simp [heapGet]
  | cons u rest ih =>
    cases a with
    | zero => simp at ha
    | succ b =>
      simp only [heapGet]
      exact ih b (by simpa [Nat.succ_le_succ_iff] using ha)

theorem heapGet_append_left (h l : List TrackedTask) (a : Nat)
    (ha : a < h.length) : heapGet (h ++ l) a = heapGet h a := by
  induction h generalizing a with
  | nil => simp at ha
  | cons u rest ih =>
    cases a with
    | zero => simp [heapGet]
    | succ b =>
      simp only [List.cons_append, heapGet]
      exact ih b (by simpa [Nat.succ_lt_succ_iff] using ha)

theorem heapGet_append_length (h : List TrackedTask) (t : TrackedTask) :
    heapGet (h ++ [t]) h.length = some t := by
  induction h with
  | nil => simp [heapGet]
  | cons u rest ih => simpa [heapGet] using ih

theorem heapSet_length (h : List TrackedTask) (a : Nat) (t : TrackedTask) :
    (heapSet h a t).length = h.length := by
  induction h generalizing a with
  | nil => simp [heapSet]
  | cons u rest ih =>
    cases a with
    | zero => simp [heapSet]
    | succ b => simp [heapSet, ih]

theorem heapGet_heapSet_self (h : List TrackedTask) (a : Nat)
    (t : TrackedTask) (ha : a < h.length) :
    heapGet (heapSet h a t) a = some t := by
  induction h generalizing a with
  | nil => simp at ha
  | cons u rest ih =>
    cases a with
    | zero => simp [heapSet, heapGet]
    | succ b =>
      simp only [heapSet, heapGet]
      exact ih b (by simpa [Nat.succ_lt_succ_iff] using ha)

theorem heapGet_heapSet_ne (h : List TrackedTask) (a b : Nat)
    (t : TrackedTask) (hab : a ≠ b) :
    heapGet (heapSet h b t) a = heapGet h a := by
  induction h generalizing a b with
  | nil => simp [heapSet]
  | cons u rest ih =>
    cases b with
    | zero =>
      cases a with
      | zero => exact absurd rfl hab
      | succ a2 => simp [heapSet, heapGet]
    | succ b2 =>
      cases a with
      | zero => simp [heapSet, heapGet]
      | succ a2 =>
        simp only [heapSet, heapGet]
        exact ih a2 b2 (by omega)

theorem heapSet_heapSet (h : List TrackedTask) (a : Nat)
    (t1 t2 : TrackedTask) :
    heapSet (heapSet h a t1) a t2 = heapSet h a t2 := by
  induction h generalizing a with
  | nil => simp [heapSet]
  | cons u rest ih =>
    cases a with
    | zero => simp [heapSet]
    | succ b => simp [heapSet, ih]

theorem jsIndexOf_ge_neg_one (l : List String) (x : String) :
    -1 ≤ jsIndexOf l x := by
  induction l with
  | nil => simp [jsIndexOf]
  | cons a rest ih =>
    simp only [jsIndexOf]
    by_cases h : a = x
    · simp [h]
    · simp only [if_neg h]
      by_cases h2 : jsIndexOf rest x = -1
      · simp [h2]
      · simp only [if_neg h2]
        omega

theorem jsIndexOf_eq_neg_one (l : List String) (x : String)
    (h : l.contains x = false) : jsIndexOf l x = -1 := by
  induction l with
  | nil => rfl
  | cons a rest ih =>
    simp only [List.contains_cons, Bool.or_eq_false_iff, beq_eq_false_iff_ne,
      ne_eq] at h
    have hax : ¬a = x := fun hax => h.1 hax.symm
    simp [jsIndexOf, hax, ih h.2]

/-- C10: `hasRole` returns `false` with no authenticated user; with any
authenticated user (any role, `OBSERVER` included) and a required role that
is not one of the four hierarchy entries, it returns `true`, because both
`indexOf` lookups bottom out at `-1` and the comparison is `>=`. -/
theorem hasRole_unknown_role_degrades_unsafely :
    (∀ role : String, hasRole none role = false) ∧
    (∀ (u : AuthUser) (role : String), roleHierarchy.contains role = false →
      hasRole (some u) role = true) := by
  constructor
  · intro role; rfl
  · intro u role h
    have hidx : jsIndexOf roleHierarchy role = -1 :=
      jsIndexOf_eq_neg_one roleHierarchy role h
    have hge : -1 ≤ jsIndexOf roleHierarchy u.role :=
      jsIndexOf_ge_neg_one roleHierarchy u.role
    simp [hasRole, hidx, hge]

/-- Witness for C10 at a concrete role string. -/
theorem hasRole_unknown_role_degrades_unsafely_witness :
    roleHierarchy.contains "BILLING_MANAGER" = false ∧
    hasRole (some { role := "OBSERVER" }) "BILLING_MANAGER" = true :=
  ⟨by decide,
   hasRole_unknown_role_degrades_unsafely.2 { role := "OBSERVER" }
     "BILLING_MANAGER" (by decide)⟩

/-- C8: a decoded record whose data part fails `JSON.parse` is dropped
silently: the pending event queue (the aggregator's input) is unchanged,
no error escapes to the read loop (the handler returns normally), and
subsequent records are processed exactly as if the bad record had not
occurred. -/
theorem malformed_json_record_dropped :
    (∀ (nowIso ty data : String) (pending : List StreamEvent),
      jsonParse data = none →
      processSSEEvent nowIso ty data pending = pending) ∧
    (∀ (nowIso ty data : String) (rest : List (String × String))
       (pending : List StreamEvent),
      jsonParse data = none →
      processRecords nowIso ((ty, data) :: rest) pending =
        processRecords nowIso rest pending) := by
  have h1 : ∀ (nowIso ty data : String) (pending : List StreamEvent),
      jsonParse data = none →
      processSSEEvent nowIso ty data pending = pending := by
    intro nowIso ty data pending h
    unfold processSSEEvent
    rw [h]
    simp
  refine ⟨h1, ?_⟩
  intro nowIso ty data rest pending h
  simp only [processRecords, List.foldl_cons]
  rw [h1 nowIso ty data pending h]

/-- Witness for C8 at the concrete malformed payload `"{"`. -/
theorem malformed_json_record_dropped_witness :
    jsonParse "\x7b" = none ∧
    processSSEEvent "2024-01-01T00:00:00Z" "step_update" "\x7b"
      [] = [] :=
  ⟨rfl, malformed_json_record_dropped.1 "2024-01-01T00:00:00Z"
    "step_update" "\x7b" [] rfl⟩

theorem generateInteractionId_ne_empty (now : Int) (rand : String) :
    generateInteractionId now rand ≠ "" := by
  intro h
  have hlen := congrArg String.length h
  simp only [generateInteractionId, String.length_append] at hlen
  have h4 : ("int_" : String).length = 4 := rfl
  have h0 : ("" : String).length = 0 := rfl
  rw [h4, h0] at hlen
  omega

/-- The extra (non-id) metadata fields carried by a request. -/
def metadataExtra (req : ChatRequest) : List (String × Json) :=
  match req.metadata with
  | some m => m.extra
  | none => []

/-- A concrete request whose caller-supplied `metadata.interaction_id` is
the empty string. -/
def emptyIdRequest : ChatRequest :=
  { model := none, messages := [{ role := "user", content := "hi" }],
    temperature := none, max_tokens := none, stream := none,
    metadata := some { interaction_id := "", extra := [("trace", Json.num 7)] } }

/-- Counterexample to C9 as stated: the caller supplied
`metadata.interaction_id = ""` (a string-typed value the `ChatRequest`
interface admits), yet the sent request does not carry it unchanged — the
falsy check regenerates a fresh id. -/
theorem chat_interaction_id_counterexample :
    (match emptyIdRequest.metadata with
     | some m => m.interaction_id
     | none => "absent") = "" ∧
    sentInteractionId (chatSentRequest 1700000000000 "0.k3j9q2m8x1z" emptyIdRequest) =
      "int_1700000000000_k3j9q2m8x" ∧
    sentInteractionId (chatSentRequest 1700000000000 "0.k3j9q2m8x1z" emptyIdRequest) ≠
      "" := by
  refine ⟨rfl, rfl, ?_⟩
  intro h
  exact absurd h (by decide)

/-- C9 (amended): every sent chat completion request carries a non-empty
`metadata.interaction_id`; a fresh id is generated exactly when the caller
supplied no truthy id (absent metadata or an empty-string id) — a
caller-supplied non-empty id is sent unchanged, and the other
caller-supplied metadata fields are preserved in every case; `chatStream`
additionally forces `stream: true`. -/
theorem chat_interaction_id_tagging :
    (∀ (now : Int) (rand : String) (req : ChatRequest),
      sentInteractionId (chatSentRequest now rand req) ≠ "" ∧
      sentInteractionId (chatStreamSentRequest now rand req) ≠ "") ∧
    (∀ (now : Int) (rand : String) (req : ChatRequest) (m : ChatMetadata),
      req.metadata = some m → m.interaction_id ≠ "" →
      chatSentRequest now rand req = req ∧
      chatStreamSentRequest now rand req = { req with stream := some true }) ∧
    (∀ (now : Int) (rand : String) (req : ChatRequest),
      metadataExtra (chatSentRequest now rand req) = metadataExtra req ∧
      (chatSentRequest now rand req).messages = req.messages ∧
      (chatSentRequest now rand req).model = req.model ∧
      (chatStreamSentRequest now rand req).stream = some true) := by
  have hkeep : ∀ (now : Int) (rand : String) (req : ChatRequest)
      (m : ChatMetadata), req.metadata = some m → m.interaction_id ≠ "" →
      ensureInteractionId now rand req = req := by
    intro now rand req m hm hid
    unfold ensureInteractionId
    simp [hm, hid]
  refine ⟨?_, ?_, ?_⟩
  · intro now rand req
    constructor
    · unfold chatSentRequest ensureInteractionId sentInteractionId
      rcases hm : req.metadata with _ | m
      · simp [hm]
        exact generateInteractionId_ne_empty now rand
      · by_cases hid : m.interaction_id != ""
        · simpa [hm, hid] using (by simpa using hid)
        · simp [hm, hid]
          exact generateInteractionId_ne_empty now rand
    · unfold chatStreamSentRequest ensureInteractionId sentInteractionId
      rcases hm : req.metadata with _ | m
      · simp [hm]
        exact generateInteractionId_ne_empty now rand
      · by_cases hid : m.interaction_id != ""
        · simpa [hm, hid] using (by simpa using hid)
        · simp [hm, hid]
          exact generateInteractionId_ne_empty now rand
  · intro now rand req m hm hid
    refine ⟨hkeep now rand req m hm hid, ?_⟩
    unfold chatStreamSentRequest
    rw [hkeep now rand req m hm hid]
  · intro now rand req
    refine ⟨?_, ?_, ?_, ?_⟩
    · unfold chatSentRequest ensureInteractionId metadataExtra
      rcases hm : req.metadata with _ | m
      · simp [hm]
      · by_cases hid : m.interaction_id != "" <;> simp [hm, hid]
    · unfold chatSentRequest ensureInteractionId
      rcases hm : req.metadata with _ | m
      · simp
      · by_cases hid : m.interaction_id != "" <;> simp [hm, hid]
    · unfold chatSentRequest ensureInteractionId
      rcases hm : req.metadata with _ | m
      · simp
      · by_cases hid : m.interaction_id != "" <;> simp [hm, hid]
    · unfold chatStreamSentRequest
      rfl

/-- A concrete request with a caller-supplied non-empty id. -/
def keepIdRequest : ChatRequest :=
  { model := none, messages := [], temperature := none, max_tokens := none,
    stream := none,
    metadata := some { interaction_id := "given-id", extra := [] } }

/-- Witness for C9 (amended) at a concrete request with a caller-supplied
non-empty id. -/
theorem chat_interaction_id_tagging_witness :
    chatSentRequest 5 "0.abc" keepIdRequest = keepIdRequest :=
  (chat_interaction_id_tagging.2.1 5 "0.abc" keepIdRequest
    { interaction_id := "given-id", extra := [] } rfl (by decide)).1

theorem heapSet_append_length (h : List TrackedTask) (t u : TrackedTask) :
    heapSet (h ++ [t]) h.length u = h ++ [u] := by
  induction h with
  | nil => simp [heapSet]
  | cons v rest ih => simp [heapSet, ih]

theorem processEvent_skip (s : AggState) (e : StreamEvent)
    (h : e.thought_id = "" ∨ e.task_id = "") : processEvent s e = s := by
  unfold processEvent
  rw [if_pos h]

theorem processEvent_existing (s : AggState) (e : StreamEvent) (a : Nat)
    (task : TrackedTask) (hids : ¬(e.thought_id = "" ∨ e.task_id = ""))
    (hfound : jsMapGet s.tasks e.task_id = some a)
    (htask : heapGet s.heap a = some task) :
    processEvent s e =
      { s with heap := heapSet s.heap a (updateTaskForEvent e task) } := by
  unfold processEvent
  rw [if_neg hids]
  simp only [hfound, htask]

theorem processEvent_existing_dangling (s : AggState) (e : StreamEvent)
    (a : Nat) (hids : ¬(e.thought_id = "" ∨ e.task_id = ""))
    (hfound : jsMapGet s.tasks e.task_id = some a)
    (htask : heapGet s.heap a = none) : processEvent s e = s := by
  unfold processEvent
  rw [if_neg hids]
  simp only [hfound, htask]

theorem processEvent_new (s : AggState) (e : StreamEvent)
    (hids : ¬(e.thought_id = "" ∨ e.task_id = ""))
    (hfound : jsMapGet s.tasks e.task_id = none) :
    processEvent s e =
      { tasks := jsMapSet s.tasks e.task_id s.heap.length,
        heap := s.heap ++ [updateTaskForEvent e (newTaskFor e)] } := by
  unfold processEvent
  rw [if_neg hids]
  simp only [hfound, heapGet_append_length, heapSet_append_length]

theorem processEvent_binding_mono (s : AggState) (e : StreamEvent)
    (id : String) (a : Nat) (h : jsMapGet s.tasks id = some a) :
    jsMapGet (processEvent s e).tasks id = some a := by
  by_cases hids : e.thought_id = "" ∨ e.task_id = ""
  · rw [processEvent_skip s e hids]
    exact h
  · rcases hfound : jsMapGet s.tasks e.task_id with _ | b
    · rw [processEvent_new s e hids hfound]
      have hne : e.task_id ≠ id := by
        intro heq
        rw [heq, h] at hfound
        cases hfound
      simp only []
      rw [jsMapGet_jsMapSet_ne s.tasks e.task_id id s.heap.length hne]
      exact h
    · rcases htask : heapGet s.heap b with _ | task
      · rw [processEvent_existing_dangling s e b hids hfound htask]
        exact h
      · rw [processEvent_existing s e b task hids hfound htask]
        exact h

theorem applyBatch_binding_mono (s : AggState) (events : List StreamEvent)
    (id : String) (a : Nat) (h : jsMapGet s.tasks id = some a) :
    jsMapGet (applyBatch s events).tasks id = some a := by
  induction events generalizing s with
  | nil => exact h
  | cons e rest ih =>
    simp only [applyBatch, List.foldl_cons]
    exact ih (processEvent s e) (processEvent_binding_mono s e id a h)

/-- A first event for task `t1` / thought `h1`, carrying no description. -/
def ev1 : StreamEvent :=
  { event_type := "thought_start", thought_id := "h1", task_id := "t1",
    data := [], timestamp := "2024-01-01T00:00:00Z" }

/-- A later terminal event for the same task, carrying a description. -/
def ev2 : StreamEvent :=
  { event_type := "action_result", thought_id := "h1", task_id := "t1",
    data := [("task_description", Json.str "d"),
             ("action_executed", Json.str "speak.task_complete")],
    timestamp := "2024-01-01T00:00:01Z" }

/-- The snapshot after one batch containing only `ev1`. -/
def priorSnapshot : AggState := applyBatch aggInit [ev1]

/-- Counterexample to C2 as stated: the `TrackedTask` object at heap
address 0 is reachable from the prior snapshot (bound to `"t1"`), and
applying a batch for the same task mutates it in place — its `completed`
flag flips from `false` to `true` (its stage map gains an entry likewise),
so the task objects reachable from the prior snapshot are *not* unchanged. -/
theorem snapshot_deep_immutability_counterexample :
    jsMapGet priorSnapshot.tasks "t1" = some 0 ∧
    (heapGet priorSnapshot.heap 0).map (fun t => t.completed) = some false ∧
    (heapGet (applyBatch priorSnapshot [ev2]).heap 0).map
      (fun t => t.completed) = some true ∧
    (heapGet priorSnapshot.heap 0).map (fun t => t.thoughts.map
      (fun th => th.stages.length)) = some [1] ∧
    (heapGet (applyBatch priorSnapshot [ev2]).heap 0).map
      (fun t => t.thoughts.map (fun th => th.stages.length)) = some [2] := by
  refine ⟨rfl, rfl, rfl, rfl, rfl⟩

/-- C2 (amended): `apply` returns a fresh snapshot map and never writes
through the prior map: every `task_id` bound in the prior snapshot stays
bound to the same task object (heap address) in the new snapshot, and no
binding is removed.  The task *objects*, however, are shared between the
two snapshots and are mutated in place (thought lists, stage maps,
completed flags), so equality-based change detection is sound for the
top-level map reference only, not for the nested objects. -/
theorem snapshot_bindings_preserved (s : AggState)
    (events : List StreamEvent) (id : String) (a : Nat)
    (h : jsMapGet s.tasks id = some a) :
    jsMapGet (applyBatch s events).tasks id = some a :=
  applyBatch_binding_mono s events id a h

/-- Witness for C2 (amended) at the concrete prior snapshot. -/
theorem snapshot_bindings_preserved_witness :
    jsMapGet (applyBatch priorSnapshot [ev2]).tasks "t1" = some 0 :=
  snapshot_bindings_preserved priorSnapshot [ev2] "t1" 0 rfl

theorem updateTaskForEvent_description (e : StreamEvent) (t : TrackedTask) :
    (updateTaskForEvent e t).description = t.description := by
  simp only [updateTaskForEvent]
  split <;> split <;> split <;> rfl

theorem updateTaskForEvent_completed (e : StreamEvent) (t : TrackedTask) :
    (updateTaskForEvent e t).completed = (t.completed || isTerminalEvent e) := by
  simp only [updateTaskForEvent]
  split <;> split <;> split <;> simp_all

theorem processEvent_heap_len_mono (s : AggState) (e : StreamEvent) :
    s.heap.length ≤ (processEvent s e).heap.length := by
  by_cases hids : e.thought_id = "" ∨ e.task_id = ""
  · rw [processEvent_skip s e hids]
  · rcases hfound : jsMapGet s.tasks e.task_id with _ | b
    · rw [processEvent_new s e hids hfound]
      simp
    · rcases htask : heapGet s.heap b with _ | task
      · rw [processEvent_existing_dangling s e b hids hfound htask]
      · rw [processEvent_existing s e b task hids hfound htask]
        simp [heapSet_length]

theorem processEvent_descAt (s : AggState) (e : StreamEvent) (a : Nat)
    (ha : a < s.heap.length) :
    taskDescAt (processEvent s e) a = taskDescAt s a := by
  by_cases hids : e.thought_id = "" ∨ e.task_id = ""
  · rw [processEvent_skip s e hids]
  · rcases hfound : jsMapGet s.tasks e.task_id with _ | b
    · rw [processEvent_new s e hids hfound]
      simp only [taskDescAt]
      rw [heapGet_append_left s.heap _ a ha]
    · rcases htask : heapGet s.heap b with _ | task
      · rw [processEvent_existing_dangling s e b hids hfound htask]
      · rw [processEvent_existing s e b task hids hfound htask]
        simp only [taskDescAt]
        by_cases hab : a = b
        · subst hab
          rw [heapGet_heapSet_self s.heap a _ ha, htask]
          simp only [updateTaskForEvent_description]
        · rw [heapGet_heapSet_ne s.heap a b _ hab]

/-- C7 (amended): a task's description is fixed at creation time — it is
taken from the event that first creates the task (that event's
`task_description` if truthy, else `""`) — and no later event ever changes
it, even one that does carry a `task_description`. -/
theorem description_from_creating_event :
    (∀ (s : AggState) (events : List StreamEvent) (a : Nat),
      a < s.heap.length →
      taskDescAt (applyBatch s events) a = taskDescAt s a) ∧
    (∀ (s : AggState) (e : StreamEvent),
      ¬(e.thought_id = "" ∨ e.task_id = "") →
      jsMapGet s.tasks e.task_id = none →
      taskDescAt (processEvent s e) s.heap.length = some (descOf e.data)) := by
  constructor
  · intro s events a ha
    induction events generalizing s with
    | nil => rfl
    | cons e rest ih =>
      simp only [applyBatch, List.foldl_cons]
      have h1 := processEvent_descAt s e a ha
      have h2 := ih (processEvent s e)
        (Nat.lt_of_lt_of_le ha (processEvent_heap_len_mono s e))
      simp only [applyBatch] at h2
      rw [h2, h1]
  · intro s e hids hfound
    rw [processEvent_new s e hids hfound]
    simp only [taskDescAt, heapGet_append_length,
      updateTaskForEvent_description]
    rfl

/-- Counterexample to C7 as stated: in the sequence `[ev1, ev2]` the
earliest event carrying a `task_description` is `ev2` (value `"d"`), yet
the resulting task's description is `""`, fixed when `ev1` created the
task. -/
theorem description_first_event_counterexample :
    jsMapGet ev1.data "task_description" = none ∧
    jsMapGet ev2.data "task_description" = some (Json.str "d") ∧
    jsMapGet (applyBatch aggInit [ev1, ev2]).tasks "t1" = some 0 ∧
    (match taskDescAt (applyBatch aggInit [ev1, ev2]) 0 with
     | some (Json.str s) => s
     | _ => "not-a-string") = "" := by
  exact ⟨rfl, rfl, rfl, rfl⟩

/-- Witness for C7 (amended): the creating event's description is stored. -/
theorem description_from_creating_event_witness :
    taskDescAt (processEvent aggInit ev2) 0 = some (descOf ev2.data) :=
  description_from_creating_event.2 aggInit ev2 (by decide) rfl

/-- The completed flag of the task bound to `id` in the snapshot map
(`false` when the task is absent). -/
def taskCompletedOf (s : AggState) (id : String) : Bool :=
  match jsMapGet s.tasks id with
  | some a => heapCompleted s a
  | none => false

theorem heapCompleted_lt (s : AggState) (a : Nat)
    (h : heapCompleted s a = true) : a < s.heap.length := by
  unfold heapCompleted at h
  rcases hg : heapGet s.heap a with _ | t
  · rw [hg] at h
    cases h
  · exact heapGet_lt_length s.heap a t hg

theorem processEvent_completed_mono (s : AggState) (e : StreamEvent)
    (a : Nat) (h : heapCompleted s a = true) :
    heapCompleted (processEvent s e) a = true := by
  have ha := heapCompleted_lt s a h
  by_cases hids : e.thought_id = "" ∨ e.task_id = ""
  · rw [processEvent_skip s e hids]
    exact h
  · rcases hfound : jsMapGet s.tasks e.task_id with _ | b
    · rw [processEvent_new s e hids hfound]
      unfold heapCompleted at h ⊢
      simp only []
      rw [heapGet_append_left s.heap _ a ha]
      exact h
    · rcases htask : heapGet s.heap b with _ | task
      · rw [processEvent_existing_dangling s e b hids hfound htask]
        exact h
      · rw [processEvent_existing s e b task hids hfound htask]
        unfold heapCompleted at h ⊢
        simp only []
        by_cases hab : a = b
        · subst hab
          rw [heapGet_heapSet_self s.heap a _ ha]
          rw [htask] at h
          have h2 : task.completed = true := h
          show (updateTaskForEvent e task).completed = true
          rw [updateTaskForEvent_completed, h2]
          rfl
        · rw [heapGet_heapSet_ne s.heap a b _ hab]
          exact h

theorem processEvent_completed_only_terminal (s : AggState)
    (e : StreamEvent) (a : Nat)
    (h : heapCompleted (processEvent s e) a = true) :
    heapCompleted s a = true ∨ isTerminalEvent e = true := by
  by_cases hterm : isTerminalEvent e = true
  · exact Or.inr hterm
  · left
    by_cases hids : e.thought_id = "" ∨ e.task_id = ""
    · rw [processEvent_skip s e hids] at h
      exact h
    · rcases hfound : jsMapGet s.tasks e.task_id with _ | b
      · rw [processEvent_new s e hids hfound] at h
        unfold heapCompleted at h ⊢
        simp only [] at h
        by_cases ha : a < s.heap.length
        · rw [heapGet_append_left s.heap _ a ha] at h
          exact h
        · exfalso
          by_cases haeq : a = s.heap.length
          · subst haeq
            rw [heapGet_append_length] at h
            have h2 : (updateTaskForEvent e (newTaskFor e)).completed = true := h
            rw [updateTaskForEvent_completed] at h2
            simp only [newTaskFor, Bool.false_or] at h2
            exact hterm h2
          · have : s.heap.length + 1 ≤ a := by omega
            rw [heapGet_none_of_ge (s.heap ++ [_]) a (by simp; omega)] at h
            cases h
      · rcases htask : heapGet s.heap b with _ | task
        · rw [processEvent_existing_dangling s e b hids hfound htask] at h
          exact h
        · rw [processEvent_existing s e b task hids hfound htask] at h
          unfold heapCompleted at h ⊢
          simp only [] at h
          by_cases hab : a = b
          · subst hab
            have hb := heapGet_lt_length s.heap a task htask
            rw [heapGet_heapSet_self s.heap a _ hb] at h
            have h2 : (updateTaskForEvent e task).completed = true := h
            rw [updateTaskForEvent_completed] at h2
            simp only [Bool.or_eq_true] at h2
            rcases h2 with h2 | h2
            · rw [htask]
              exact h2
            · exact absurd h2 hterm
          · rw [heapGet_heapSet_ne s.heap a b _ hab] at h
            exact h

/-- C1: a task's `completed` flag is monotone — once `true` in the
snapshot, it stays `true` under any further batch — and the only step that
can raise it from `false` to `true` is an `action_result` event whose
payload's `action_executed` string contains `task_complete` or
`task_reject`; no code path lowers it. -/
theorem completed_flag_monotone :
    (∀ (s : AggState) (events : List StreamEvent) (id : String),
      taskCompletedOf s id = true →
      taskCompletedOf (applyBatch s events) id = true) ∧
    (∀ (s : AggState) (e : StreamEvent) (a : Nat),
      heapCompleted (processEvent s e) a = true →
      heapCompleted s a = true ∨ isTerminalEvent e = true) := by
  constructor
  · intro s events id h
    unfold taskCompletedOf at h
    rcases hfound : jsMapGet s.tasks id with _ | a
    · rw [hfound] at h
      cases h
    · rw [hfound] at h
      have hbind := applyBatch_binding_mono s events id a hfound
      have hmono : heapCompleted (applyBatch s events) a = true := by
        clear hbind hfound
        induction events generalizing s with
        | nil => exact h
        | cons e rest ih =>
          simp only [applyBatch, List.foldl_cons] at ih ⊢
          exact ih (processEvent s e) (processEvent_completed_mono s e a h)
      unfold taskCompletedOf
      rw [hbind]
      exact hmono
  · exact processEvent_completed_only_terminal

/-- Witness for C1 at a concrete completed task and a following batch. -/
theorem completed_flag_monotone_witness :
    taskCompletedOf (applyBatch (applyBatch aggInit [ev2]) [ev1]) "t1" =
      true :=
  completed_flag_monotone.1 (applyBatch aggInit [ev2]) [ev1] "t1" rfl

/-- `find` / `push` step of the loop body on the thoughts array. -/
def ensureThought (e : StreamEvent) (l : List TrackedThought) :
    List TrackedThought :=
  if (l.find? (fun t => t.thoughtId = e.thought_id)).isSome then l
  else l ++ [{ thoughtId := e.thought_id, stages := [] }]

/-- `thought.stages.set` step of the loop body on the thoughts array. -/
def applyStage (e : StreamEvent) (l : List TrackedThought) :
    List TrackedThought :=
  if STAGE_NAMES.contains e.event_type then
    updateFirstThought l e.thought_id (setStageFor e)
  else l

theorem updateTaskForEvent_eq (e : StreamEvent) (t : TrackedTask) :
    updateTaskForEvent e t =
      { t with thoughts := applyStage e (ensureThought e t.thoughts),
               completed := t.completed || isTerminalEvent e } := by
  simp only [updateTaskForEvent, ensureThought, applyStage]
  by_cases h1 : (t.thoughts.find? (fun th => th.thoughtId = e.thought_id)).isSome
  · by_cases h2 : e.event_type ∈ STAGE_NAMES
    · by_cases h3 : isTerminalEvent e <;> simp [h1, h2, h3]
    · by_cases h3 : isTerminalEvent e <;> simp [h1, h2, h3]
  · by_cases h2 : e.event_type ∈ STAGE_NAMES
    · by_cases h3 : isTerminalEvent e <;> simp [h1, h2, h3]
    · by_cases h3 : isTerminalEvent e <;> simp [h1, h2, h3]

theorem setStageFor_thoughtId (e : StreamEvent) (th : TrackedThought) :
    (setStageFor e th).thoughtId = th.thoughtId := rfl

theorem setStageFor_idem (e : StreamEvent) (th : TrackedThought) :
    setStageFor e (setStageFor e th) = setStageFor e th := by
  simp only [setStageFor]
  rw [jsMapSet_eq_self_of_get _ _ _ (jsMapGet_jsMapSet_self th.stages
    e.event_type (mkStageRec e))]

theorem updateFirstThought_comp (l : List TrackedThought) (tid : String)
    (f g : TrackedThought → TrackedThought)
    (hg : ∀ th, (g th).thoughtId = th.thoughtId) :
    updateFirstThought (updateFirstThought l tid g) tid f =
      updateFirstThought l tid (fun th => f (g th)) := by
  induction l with
  | nil => rfl
  | cons th rest ih =>
    by_cases h : th.thoughtId = tid
    · simp [updateFirstThought, h, hg]
    · simp [updateFirstThought, h, ih]

theorem updateFirstThought_congr (l : List TrackedThought) (tid : String)
    (f g : TrackedThought → TrackedThought)
    (h : ∀ th, th.thoughtId = tid → f th = g th) :
    updateFirstThought l tid f = updateFirstThought l tid g := by
  induction l with
  | nil => rfl
  | cons th rest ih =>
    by_cases hth : th.thoughtId = tid
    · simp [updateFirstThought, hth, h th hth]
    · simp [updateFirstThought, hth, ih]

theorem find?_isSome_updateFirstThought (l : List TrackedThought)
    (tid : String) (f : TrackedThought → TrackedThought)
    (hf : ∀ th, (f th).thoughtId = th.thoughtId) :
    ((updateFirstThought l tid f).find?
        (fun t => t.thoughtId = tid)).isSome =
      (l.find? (fun t => t.thoughtId = tid)).isSome := by
  induction l with
  | nil => rfl
  | cons th rest ih =>
    by_cases h : th.thoughtId = tid
    · simp [updateFirstThought, h, List.find?_cons, hf]
    · simp only [updateFirstThought, if_neg h, List.find?_cons]
      have hth : (decide (th.thoughtId = tid)) = false := by

        simp [h]
      rw [hth]
      exact ih

theorem find?_isSome_ensureThought (e : StreamEvent)
    (l : List TrackedThought) :
    ((ensureThought e l).find?
        (fun t => t.thoughtId = e.thought_id)).isSome = true := by
  unfold ensureThought
  by_cases h : (l.find? (fun t => t.thoughtId = e.thought_id)).isSome
  · simp [h]
  · rw [if_neg h]
    rw [List.find?_append]
    have hnone : l.find? (fun t => t.thoughtId = e.thought_id) = none := by
      rcases hv : l.find? (fun t => t.thoughtId = e.thought_id) with _ | v
      · exact hv
      · rw [hv] at h
        simp at h
    rw [hnone]
    simp [List.find?_cons]

theorem ensureThought_of_isSome (e : StreamEvent) (l : List TrackedThought)
    (h : (l.find? (fun t => t.thoughtId = e.thought_id)).isSome = true) :
    ensureThought e l = l := by
  unfold ensureThought
  rw [if_pos h]

theorem applyStage_find_isSome (e : StreamEvent) (l : List TrackedThought) :
    ((applyStage e l).find? (fun t => t.thoughtId = e.thought_id)).isSome =
      (l.find? (fun t => t.thoughtId = e.thought_id)).isSome := by
  unfold applyStage
  split
  · exact find?_isSome_updateFirstThought l e.thought_id (setStageFor e)
      (setStageFor_thoughtId e)
  · rfl

theorem applyStage_idem_after_ensure (e : StreamEvent)
    (l : List TrackedThought) :
    applyStage e (ensureThought e (applyStage e (ensureThought e l))) =
      applyStage e (ensureThought e l) := by
  have hsome := find?_isSome_ensureThought e l
  have hsome2 : ((applyStage e (ensureThought e l)).find?
      (fun t => t.thoughtId = e.thought_id)).isSome = true := by
    rw [applyStage_find_isSome]
    exact hsome
  rw [ensureThought_of_isSome e _ hsome2]
  unfold applyStage
  split
  · rw [updateFirstThought_comp _ _ _ _ (setStageFor_thoughtId e)]
    exact updateFirstThought_congr _ _ _ _
      (fun th _ => setStageFor_idem e th)
  · rfl

theorem updateTaskForEvent_idem (e : StreamEvent) (t : TrackedTask) :
    updateTaskForEvent e (updateTaskForEvent e t) = updateTaskForEvent e t := by
  rw [updateTaskForEvent_eq e t]
  rw [updateTaskForEvent_eq e]
  dsimp only
  rw [applyStage_idem_after_ensure, Bool.or_assoc, Bool.or_self]

/-- C6: `apply` is idempotent on re-application of an already-seen event:
once an event has been applied, applying a batch containing it again
leaves the state exactly unchanged — the stage entry keyed by the stage
name is overwritten with the same record, and no duplicate task, thought,
or stage entry is created. -/
theorem apply_event_idempotent (s : AggState) (e : StreamEvent) :
    applyBatch (applyBatch s [e]) [e] = applyBatch s [e] := by
  show processEvent (processEvent s e) e = processEvent s e
  by_cases hids : e.thought_id = "" ∨ e.task_id = ""
  · rw [processEvent_skip s e hids, processEvent_skip s e hids]
  · rcases hfound : jsMapGet s.tasks e.task_id with _ | b
    · rw [processEvent_new s e hids hfound]
      have hfound2 : jsMapGet
          ({ tasks := jsMapSet s.tasks e.task_id s.heap.length,
             heap := s.heap ++ [updateTaskForEvent e (newTaskFor e)] } :
            AggState).tasks e.task_id = some s.heap.length :=
        jsMapGet_jsMapSet_self s.tasks e.task_id s.heap.length
      have htask2 : heapGet
          ({ tasks := jsMapSet s.tasks e.task_id s.heap.length,
             heap := s.heap ++ [updateTaskForEvent e (newTaskFor e)] } :
            AggState).heap s.heap.length =
            some (updateTaskForEvent e (newTaskFor e)) :=
        heapGet_append_length s.heap _
      rw [processEvent_existing _ e s.heap.length
        (updateTaskForEvent e (newTaskFor e)) hids hfound2 htask2]
      simp only [updateTaskForEvent_idem]
      have hset : heapSet (s.heap ++ [updateTaskForEvent e (newTaskFor e)])
          s.heap.length (updateTaskForEvent e (newTaskFor e)) =
            s.heap ++ [updateTaskForEvent e (newTaskFor e)] :=
        heapSet_append_length s.heap _ _
      rw [hset]
    · rcases htask : heapGet s.heap b with _ | task
      · rw [processEvent_existing_dangling s e b hids hfound htask,
          processEvent_existing_dangling s e b hids hfound htask]
      · rw [processEvent_existing s e b task hids hfound htask]
        have hb := heapGet_lt_length s.heap b task htask
        have hfound2 : jsMapGet
            ({ s with heap := heapSet s.heap b (updateTaskForEvent e task) } :
              AggState).tasks e.task_id = some b := hfound
        have htask2 : heapGet
            ({ s with heap := heapSet s.heap b (updateTaskForEvent e task) } :
              AggState).heap b = some (updateTaskForEvent e task) :=
          heapGet_heapSet_self s.heap b _ hb
        rw [processEvent_existing _ e b (updateTaskForEvent e task) hids
          hfound2 htask2]
        simp only [updateTaskForEvent_idem, heapSet_heapSet]

/-- The single-task, single-thought snapshot shape reached by feeding
events for one task/thought pair into an empty aggregator. -/
def mkSingle (T H : String) (d : Json) (c : Bool) (ts : String)
    (m : List (String × ThoughtStage)) : AggState :=
  { tasks := [(T, 0)],
    heap := [{ taskId := T, description := d, completed := c,
               firstTimestamp := ts,
               thoughts := [{ thoughtId := H, stages := m }] }] }

/-- The effect of one event on the stage map of its thought. -/
def stageStep (m : List (String × ThoughtStage)) (e : StreamEvent) :
    List (String × ThoughtStage) :=
  if STAGE_NAMES.contains e.event_type then
    jsMapSet m e.event_type (mkStageRec e)
  else m

theorem ensureThought_found (e : StreamEvent)
    (m : List (String × ThoughtStage)) :
    ensureThought e [{ thoughtId := e.thought_id, stages := m }] =
      [{ thoughtId := e.thought_id, stages := m }] := by
  unfold ensureThought
  simp [List.find?_cons]

theorem applyStage_single (e : StreamEvent) (m : List (String × ThoughtStage)) :
    applyStage e [{ thoughtId := e.thought_id, stages := m }] =
      [{ thoughtId := e.thought_id, stages := stageStep m e }] := by
  unfold applyStage stageStep updateFirstThought setStageFor
  split <;> simp

theorem processEvent_mkSingle (T H : String) (e : StreamEvent)
    (hT : e.task_id = T) (hH : e.thought_id = H) (hTne : T ≠ "")
    (hHne : H ≠ "") (d : Json) (c : Bool) (ts : String)
    (m : List (String × ThoughtStage)) :
    processEvent (mkSingle T H d c ts m) e =
      mkSingle T H d (c || isTerminalEvent e) ts (stageStep m e) := by
  have hids : ¬(e.thought_id = "" ∨ e.task_id = "") := by
    rw [hT, hH]
    intro hor
    rcases hor with h | h
    · exact hHne h
    · exact hTne h
  have hfound : jsMapGet (mkSingle T H d c ts m).tasks e.task_id = some 0 := by
    simp [mkSingle, jsMapGet, hT]
  have htask : heapGet (mkSingle T H d c ts m).heap 0 =
      some { taskId := T, description := d, completed := c,
             firstTimestamp := ts,
             thoughts := [{ thoughtId := H, stages := m }] } := rfl
  rw [processEvent_existing _ e 0 _ hids hfound htask]
  rw [updateTaskForEvent_eq]
  subst hH
  rw [ensureThought_found e m, applyStage_single]
  rfl

theorem stageFold_mkSingle (T H : String) (events : List StreamEvent)
    (hTne : T ≠ "") (hHne : H ≠ "")
    (hall : ∀ e ∈ events, e.task_id = T ∧ e.thought_id = H) :
    ∀ (d : Json) (c : Bool) (ts : String)
      (m : List (String × ThoughtStage)),
      ∃ c2, events.foldl processEvent (mkSingle T H d c ts m) =
        mkSingle T H d c2 ts (events.foldl stageStep m) := by
  induction events with
  | nil => exact fun d c ts m => ⟨c, rfl⟩
  | cons e rest ih =>
    intro d c ts m
    have he := hall e (List.mem_cons_self e rest)
    have hrest : ∀ e2 ∈ rest, e2.task_id = T ∧ e2.thought_id = H :=
      fun e2 h2 => hall e2 (List.mem_cons_of_mem e h2)
    simp only [List.foldl_cons]
    rw [processEvent_mkSingle T H e he.1 he.2 hTne hHne d c ts m]
    exact ih hrest d (c || isTerminalEvent e) ts (stageStep m e)

theorem stageKeys_mkSingle (T H : String) (d : Json) (c : Bool)
    (ts : String) (m : List (String × ThoughtStage)) :
    stageKeys (mkSingle T H d c ts m) T H = m.map Prod.fst := by
  simp [stageKeys, mkSingle, jsMapGet, heapGet, List.find?_cons]

theorem jsMapSet_keys_mem {α : Type} (m : List (String × α)) (k x : String)
    (v : α) :
    x ∈ (jsMapSet m k v).map Prod.fst ↔
      x = k ∨ x ∈ m.map Prod.fst := by
  induction m with
  | nil => simp [jsMapSet, eq_comm]
  | cons p rest ih =>
    by_cases h : p.1 = k
    · simp only [jsMapSet, if_pos h, List.map_cons, List.mem_cons]
      rw [← h]
      tauto
    · simp only [jsMapSet, if_neg h, List.map_cons, List.mem_cons]
      rw [ih]
      tauto

theorem stageFold_keys_mem (events : List StreamEvent) :
    ∀ (m : List (String × ThoughtStage)) (x : String),
      x ∈ (events.foldl stageStep m).map Prod.fst ↔
        x ∈ m.map Prod.fst ∨
          (x ∈ STAGE_NAMES ∧ x ∈ events.map (fun e => e.event_type)) := by
  induction events with
  | nil => simp
  | cons e rest ih =>
    intro m x
    simp only [List.foldl_cons, List.map_cons, List.mem_cons]
    rw [ih (stageStep m e) x]
    unfold stageStep
    by_cases hk : STAGE_NAMES.contains e.event_type
    · rw [if_pos hk]
      rw [jsMapSet_keys_mem]
      have hmem : e.event_type ∈ STAGE_NAMES := by
        simpa using hk
      constructor
      · intro h
        rcases h with (h | h) | h
        · subst h
          exact Or.inr ⟨hmem, Or.inl rfl⟩
        · exact Or.inl h
        · exact Or.inr ⟨h.1, Or.inr h.2⟩
      · intro h
        rcases h with h | ⟨hs, h | h⟩
        · exact Or.inl (Or.inr h)
        · exact Or.inl (Or.inl h)
        · exact Or.inr ⟨hs, h⟩
    · rw [if_neg hk]
      have hmem : ¬e.event_type ∈ STAGE_NAMES := by
        simpa using hk
      constructor
      · intro h
        rcases h with h | h
        · exact Or.inl h
        · exact Or.inr ⟨h.1, Or.inr h.2⟩
      · intro h
        rcases h with h | ⟨hs, h | h⟩
        · exact Or.inl h
        · exact absurd (h ▸ hs) hmem
        · exact Or.inr ⟨hs, h⟩

/-- C5: stage insertion is order-independent — for any events all
addressed to one task and one thought (with non-empty ids), the resulting
thought's stage map has as keys exactly the known stage names received,
whatever the arrival order, and unknown stage names contribute nothing;
batches compose, so the same holds across any batch boundaries. -/
theorem stage_insertion_order_independent :
    (∀ (T H : String) (events : List StreamEvent),
      T ≠ "" → H ≠ "" →
      (∀ e ∈ events, e.task_id = T ∧ e.thought_id = H) →
      ∀ name, name ∈ stageKeys (applyBatch aggInit events) T H ↔
        (name ∈ STAGE_NAMES ∧
          name ∈ events.map (fun e => e.event_type))) ∧
    (∀ (s : AggState) (b1 b2 : List StreamEvent),
      applyBatch s (b1 ++ b2) = applyBatch (applyBatch s b1) b2) := by
  constructor
  · intro T H events hT2 hH hall name
    match events with
    | [] =>
      simp [applyBatch, stageKeys, aggInit, jsMapGet]
    | e0 :: rest =>
      have he0 := hall e0 (List.mem_cons_self e0 rest)
      have hrest : ∀ e2 ∈ rest, e2.task_id = T ∧ e2.thought_id = H :=
        fun e2 h2 => hall e2 (List.mem_cons_of_mem e0 h2)
      have hcreate : processEvent aggInit e0 =
          mkSingle T H (descOf e0.data) (isTerminalEvent e0) e0.timestamp
            (stageStep [] e0) := by
        have hids : ¬(e0.thought_id = "" ∨ e0.task_id = "") := by
          rw [he0.1, he0.2]
          intro hor
          rcases hor with h | h
          · exact hH h
          · exact hT2 h
        rw [processEvent_new aggInit e0 hids rfl]
        rw [updateTaskForEvent_eq]
        simp only [newTaskFor]
        have hens : ensureThought e0 ([] : List TrackedThought) =
            [{ thoughtId := e0.thought_id, stages := [] }] := by
          unfold ensureThought
          simp
        rw [hens, applyStage_single]
        simp [mkSingle, aggInit, jsMapSet, he0.1, he0.2]
      simp only [applyBatch, List.foldl_cons]
      rw [hcreate]
      obtain ⟨c2, hc2⟩ := stageFold_mkSingle T H rest hT2 hH hrest
        (descOf e0.data) (isTerminalEvent e0) e0.timestamp (stageStep [] e0)
      rw [hc2, stageKeys_mkSingle]
      have := stageFold_keys_mem rest (stageStep [] e0) name
      rw [this]
      have hstep := stageFold_keys_mem [e0] ([] : List (String × ThoughtStage))
        name
      simp only [List.foldl_cons, List.foldl_nil, List.map_cons,
        List.map_nil] at hstep
      rw [hstep]
      simp only [List.map_nil, List.mem_cons, List.map_cons]
      constructor
      · intro h
        rcases h with (h | ⟨hs, h⟩) | ⟨hs, h⟩
        · simp at h
        · simp at h
          exact ⟨hs, Or.inl h⟩
        · exact ⟨hs, Or.inr h⟩
      · intro ⟨hs, h⟩
        rcases h with h | h
        · exact Or.inl (Or.inr ⟨hs, by simp [h]⟩)
        · exact Or.inr ⟨hs, h⟩
  · intro s b1 b2
    simp [applyBatch, List.foldl_append]

/-- Witness for C5 at two concrete out-of-order events. -/
theorem stage_insertion_order_independent_witness :
    ("action_result" ∈ stageKeys (applyBatch aggInit [ev2, ev1]) "t1" "h1" ↔
      ("action_result" ∈ STAGE_NAMES ∧
        "action_result" ∈ [ev2, ev1].map (fun e => e.event_type))) :=
  stage_insertion_order_independent.1 "t1" "h1" [ev2, ev1]
    (by decide) (by decide) (by decide) "action_result"

theorem utf8DecodeGo_ascii (fuel : Nat) :
    ∀ bs : List Nat, (∀ b ∈ bs, b < 128) → bs.length ≤ fuel →
      utf8DecodeGo fuel bs = (bs.map Char.ofNat, []) := by
  induction fuel with
  | zero =>
    intro bs _ hlen
    cases bs with
    | nil => rfl
    | cons b rest => simp at hlen
  | succ fuel ih =>
    intro bs hascii hlen
    cases bs with
    | nil => rfl
    | cons b rest =>
      have hb : b < 128 := hascii b (List.mem_cons_self b rest)
      have hrest : ∀ x ∈ rest, x < 128 :=
        fun x hx => hascii x (List.mem_cons_of_mem b hx)
      simp only [utf8DecodeGo, if_pos hb]
      rw [ih rest hrest (by simpa using Nat.succ_le_succ_iff.mp hlen)]
      rfl

theorem utf8Decode_ascii (c : List Nat) (h : ∀ b ∈ c, b < 128) :
    utf8Decode [] c = (c.map Char.ofNat, []) := by
  unfold utf8Decode
  simp only [List.nil_append, List.length_nil, Nat.zero_add]
  exact utf8DecodeGo_ascii c.length c h (Nat.le_refl _)

theorem splitNl_ne_nil (l : List Char) : splitNl l ≠ [] := by
  cases l with
  | nil => simp [splitNl]
  | cons c rest =>
    simp only [splitNl]
    rcases h : splitNl rest with _ | ⟨x, xs⟩
    · simp
    · simp only [h]
      split <;> simp

theorem splitNl_cons (c : Char) (rest : List Char) :
    splitNl (c :: rest) =
      if c = '\n' then [] :: splitNl rest
      else (c :: (splitNl rest).headD []) :: (splitNl rest).tail := by
  rcases h : splitNl rest with _ | ⟨x, xs⟩
  · exact absurd h (splitNl_ne_nil rest)
  · simp only [splitNl, h]
    by_cases hc : c = '\n' <;> simp [hc]

/-- Merge the last fragment of a left split into the first fragment of the
right split. -/
def glueHead (x : List Char) : List (List Char) → List (List Char)
  | [] => [x]
  | h :: t => (x ++ h) :: t

theorem glueHead_ne_nil (x : List Char) (ys : List (List Char)) :
    glueHead x ys ≠ [] := by
  cases ys <;> simp [glueHead]

theorem splitNl_append (a b : List Char) :
    splitNl (a ++ b) =
      (splitNl a).dropLast ++
        glueHead ((splitNl a).getLastD []) (splitNl b) := by
  induction a with
  | nil =>
    rcases h : splitNl b with _ | ⟨y, ys⟩
    · exact absurd h (splitNl_ne_nil b)
    · simp [splitNl, glueHead, h]
  | cons c a2 ih =>
    rcases h2 : splitNl a2 with _ | ⟨x, xs⟩
    · exact absurd h2 (splitNl_ne_nil a2)
    · rcases h3 : splitNl (a2 ++ b) with _ | ⟨y, ys⟩
      · exact absurd h3 (splitNl_ne_nil (a2 ++ b))
      · rw [h2, h3] at ih
        by_cases hc : c = '\n'
        · rw [List.cons_append, splitNl_cons, if_pos hc, h3,
            splitNl_cons, if_pos hc, h2]
          simp only [List.dropLast_cons₂, List.getLastD_cons,
            List.cons_append]
          rw [ih, List.getLastD_cons]
        · rw [List.cons_append, splitNl_cons, if_neg hc, h3,
            splitNl_cons, if_neg hc, h2]
          cases xs with
          | nil =>
            simp only [List.headD_cons, List.tail_cons,
              List.dropLast_single, List.nil_append, List.getLastD_cons,
              List.getLastD_nil] at ih ⊢
            rcases hb : splitNl b with _ | ⟨z, zs⟩
            · exact absurd hb (splitNl_ne_nil b)
            · rw [hb] at ih
              simp only [glueHead] at ih ⊢
              cases ih
              simp
          | cons x2 xs2 =>
            simp only [List.headD_cons, List.tail_cons,
              List.dropLast_cons₂, List.getLastD_cons,
              List.cons_append] at ih ⊢
            injection ih with hy hys
            rw [hy, hys]

theorem splitNl_no_nl (x : List Char) (h : '\n' ∉ x) : splitNl x = [x] := by
  induction x with
  | nil => rfl
  | cons c rest ih =>
    have hc : c ≠ '\n' := fun hc => h (hc ▸ List.mem_cons_self c rest)
    have hrest : '\n' ∉ rest := fun hr => h (List.mem_cons_of_mem c hr)
    rw [splitNl_cons, if_neg hc, ih hrest]
    rfl

theorem splitNl_getLastD_no_nl (l : List Char) :
    '\n' ∉ (splitNl l).getLastD [] := by
  induction l with
  | nil => simp [splitNl]
  | cons c rest ih =>
    rcases h : splitNl rest with _ | ⟨x, xs⟩
    · exact absurd h (splitNl_ne_nil rest)
    · rw [h] at ih
      rw [splitNl_cons, h]
      by_cases hc : c = '\n'
      · rw [if_pos hc]
        simpa [List.getLastD_cons] using ih
      · rw [if_neg hc]
        cases xs with
        | nil =>
          simp only [List.headD_cons, List.tail_cons, List.getLastD_cons,
            List.getLastD_nil] at ih ⊢
          intro hmem
          rcases List.mem_cons.mp hmem with heq | hmem2
          · exact hc heq.symm
          · exact ih hmem2
        | cons x2 xs2 =>
          simpa [List.getLastD_cons] using ih

theorem getLastD_append_right {α : Type} (l1 l2 : List α) (d : α)
    (h : l2 ≠ []) : (l1 ++ l2).getLastD d = l2.getLastD d := by
  induction l1 generalizing d with
  | nil => rfl
  | cons x rest ih =>
    rw [List.cons_append, List.getLastD_cons]
    rcases l2 with _ | ⟨y, ys⟩
    · exact absurd rfl h
    · rw [ih x, List.getLastD_cons, List.getLastD_cons]

theorem feedText_nil (st : ReaderState) (h : '\n' ∉ st.buffer) :
    feedText st [] = st := by
  unfold feedText
  rw [List.append_nil, splitNl_no_nl st.buffer h]
  simp [List.dropLast_single]

theorem feedText_append (st : ReaderState) (a b : List Char) :
    feedText (feedText st a) b = feedText st (a ++ b) := by
  have hP2ne : splitNl ((splitNl (st.buffer ++ a)).getLastD [] ++ b) ≠ [] :=
    splitNl_ne_nil _
  have hsplit : splitNl (st.buffer ++ (a ++ b)) =
      (splitNl (st.buffer ++ a)).dropLast ++
        splitNl ((splitNl (st.buffer ++ a)).getLastD [] ++ b) := by
    rw [← List.append_assoc]
    rw [splitNl_append (st.buffer ++ a) b]
    rw [splitNl_append ((splitNl (st.buffer ++ a)).getLastD []) b]
    rw [splitNl_no_nl _ (splitNl_getLastD_no_nl (st.buffer ++ a))]
    simp [glueHead, List.dropLast_single]
  unfold feedText
  dsimp only
  rw [hsplit]
  rw [List.dropLast_append_of_ne_nil _ hP2ne]
  rw [List.foldl_append]
  rw [getLastD_append_right _ _ _ hP2ne]

theorem feedBytes_ascii (st : ReaderState) (c : List Nat)
    (hp : st.pending = []) (ha : ∀ b ∈ c, b < 128) :
    feedBytes st c = feedText st (c.map Char.ofNat) := by
  unfold feedBytes
  rw [hp, utf8Decode_ascii c ha]
  have hst : ({ st with pending := [] } : ReaderState) = st := by
    rw [← hp]
  dsimp only
  rw [hst]

theorem foldl_feedBytes_ascii (chunks : List (List Nat)) :
    ∀ st : ReaderState, st.pending = [] → '\n' ∉ st.buffer →
      (∀ c ∈ chunks, ∀ b ∈ c, b < 128) →
      chunks.foldl feedBytes st =
        feedText st (chunks.flatten.map Char.ofNat) := by
  induction chunks with
  | nil =>
    intro st hp hb _
    simp only [List.foldl_nil, List.flatten_nil, List.map_nil]
    exact (feedText_nil st hb).symm
  | cons c rest ih =>
    intro st hp hb hall
    have hc : ∀ b ∈ c, b < 128 := hall c (List.mem_cons_self c rest)
    have hrest : ∀ c2 ∈ rest, ∀ b ∈ c2, b < 128 :=
      fun c2 h2 => hall c2 (List.mem_cons_of_mem c h2)
    simp only [List.foldl_cons]
    rw [feedBytes_ascii st c hp hc]
    have hp2 : (feedText st (c.map Char.ofNat)).pending = [] := hp
    have hb2 : '\n' ∉ (feedText st (c.map Char.ofNat)).buffer :=
      splitNl_getLastD_no_nl _
    rw [ih _ hp2 hb2 hrest]
    rw [feedText_append]
    rw [List.flatten_cons, List.map_append]

/-- The sample frame of the spec, as a string. -/
def sseSampleStr : String := "event: step_update\ndata: \x7b\"a\":1\x7d\n\n"

/-- The byte sequence of the sample frame. -/
def sseSampleBytes : List Nat := sseSampleStr.toList.map Char.toNat

/-- C3: the stream reader's framing is chunking-invariant — however the
byte sequence of the sample frame is split into successive chunks (any
split points, including mid-token), the read loop emits exactly one
decoded record, with event type `step_update` and a data payload that
parses to the object with field `a = 1`, because partial lines are
buffered across reads and the text decoder is stateful. -/
theorem stream_framing_chunk_invariant :
    ∀ chunks : List (List Nat), chunks.flatten = sseSampleBytes →
      (runReader chunks).frame.records =
        [("step_update", "\x7b\"a\":1\x7d")] ∧
      jsonParse "\x7b\"a\":1\x7d" = some (Json.obj [("a", Json.num 1)]) := by
  intro chunks hjoin
  have hascii : ∀ c ∈ chunks, ∀ b ∈ c, b < 128 := by
    intro c hc b hb
    have hmem : b ∈ chunks.flatten := List.mem_flatten.mpr ⟨c, hc, hb⟩
    rw [hjoin] at hmem
    have hall : ∀ x ∈ sseSampleBytes, x < 128 := by decide
    exact hall b hmem
  unfold runReader
  rw [foldl_feedBytes_ascii chunks readerInit rfl (by simp [readerInit])
    hascii, hjoin]
  exact ⟨by decide, rfl⟩

/-- Witness for C3: a concrete three-chunk split, with one split inside
the `event:` token and one inside the JSON payload. -/
theorem stream_framing_chunk_invariant_witness :
    (runReader [sseSampleBytes.take 3,
        (sseSampleBytes.drop 3).take 24,
        (sseSampleBytes.drop 3).drop 24]).frame.records =
      [("step_update", "\x7b\"a\":1\x7d")] :=
  (stream_framing_chunk_invariant
    [sseSampleBytes.take 3, (sseSampleBytes.drop 3).take 24,
     (sseSampleBytes.drop 3).drop 24] (by decide)).1

theorem setupRedirectBlock_cases (env : AuthEnv) (s : Storage)
    (am : Option String) (ssf coc : Bool) :
    (setupRedirectBlock env s am ssf coc).2 = [] ∨
    ((setupRedirectBlock env s am ssf coc).2 = ["/setup"] ∧
     ((setupRedirectBlock env s am ssf coc).1).ciris_redirect_in_progress =
       some "true") := by
  unfold setupRedirectBlock
  simp only []
  split
  · split
    · right
      exact ⟨rfl, rfl⟩
    · left
      rfl
  · left
    rfl

theorem checkNativeAuthLogin_cases (env : AuthEnv) (s : Storage)
    (nad : String) (am : Option String) (ssf : Bool) :
    (checkNativeAuthLogin env s nad am ssf).2.2 = [] ∨
    ((checkNativeAuthLogin env s nad am ssf).2.2 = ["/setup"] ∧
     ((checkNativeAuthLogin env s nad am
         ssf).2.1).ciris_redirect_in_progress = some "true") := by
  unfold checkNativeAuthLogin
  simp only []
  split
  · left
    rfl
  · split
    · left
      rfl
    · split
      · split
        · exact setupRedirectBlock_cases env _ am ssf false
        · exact setupRedirectBlock_cases env _ am ssf false
      · exact setupRedirectBlock_cases env _ am ssf false

theorem checkNativeAuth_cases (env : AuthEnv) (s : Storage) :
    (checkNativeAuth env s).2.2 = [] ∨
    ((checkNativeAuth env s).2.2 = ["/setup"] ∧
     ((checkNativeAuth env s).2.1).ciris_redirect_in_progress =
       some "true") := by
  unfold checkNativeAuth
  simp only []
  split
  · left
    rfl
  · split
    · left
      rfl
    · split
      · split
        · exact setupRedirectBlock_cases env _ _ _ true
        · exact checkNativeAuthLogin_cases env _ _ _ _
      · exact checkNativeAuthLogin_cases env _ _ _ _

theorem checkNativeAuth_guard_rip (env : AuthEnv) (s : Storage)
    (h : s.ciris_redirect_in_progress = some "true") :
    checkNativeAuth env s = (true, s, []) := by
  unfold checkNativeAuth
  rw [h]
  simp

/-- C4: the redirect loop guard — a `checkNativeAuth` invocation that runs
while the redirect-in-progress flag is set, or within 5 seconds of the
recorded redirect timestamp, performs no navigation and short-circuits by
returning success with the storage untouched; consequently two invocations
of which the first navigates to the setup flow perform exactly one
navigation in total (the first's `"/setup"`), the second being suppressed. -/
theorem setup_redirect_guard :
    (∀ (env : AuthEnv) (s : Storage),
      (s.ciris_redirect_in_progress = some "true" ∨
        (∃ t, jsParseInt (s.ciris_last_redirect_time.getD "0") = some t ∧
          env.now - t < 5000)) →
      checkNativeAuth env s = (true, s, [])) ∧
    (∀ (env1 env2 : AuthEnv) (s : Storage),
      (checkNativeAuth env1 s).2.2 ≠ [] →
      (checkNativeAuth env1 s).2.2 = ["/setup"] ∧
      checkNativeAuth env2 (checkNativeAuth env1 s).2.1 =
        (true, (checkNativeAuth env1 s).2.1, [])) := by
  constructor
  · intro env s h
    rcases h with h | ⟨t, ht, hlt⟩
    · exact checkNativeAuth_guard_rip env s h
    · unfold checkNativeAuth
      rw [ht]
      simp [hlt]
  · intro env1 env2 s hne
    rcases checkNativeAuth_cases env1 s with hc | hc
    · exact absurd hc hne
    · exact ⟨hc.1, checkNativeAuth_guard_rip env2 _ hc.2⟩

/-- Storage for the C4 witness: a native app with an injected token, the
setup flag up, and no redirect-guard state yet. -/
def authStorage0 : Storage :=
  { isNativeApp := some "true",
    ciris_native_auth := some "\x7b\"googleUserId\":\"g1\"\x7d",
    ciris_auth_method := some "google", ciris_show_setup := some "true",
    ciris_access_token := some "tok", access_token := none,
    ciris_redirect_in_progress := none, ciris_last_redirect_time := none,
    ciris_native_auth_complete := none, ciris_native_auth_token := none,
    selectedAgentId := none, ciris_native_llm_mode := none }

/-- Environment for the first C4 witness invocation: setup is required. -/
def authEnv1 : AuthEnv :=
  { now := 10000, currentPath := "/", sdkAuthenticated := false,
    loginResult := some (some "t2"), setupApi := SetupApiOutcome.required }

/-- Environment for the second C4 witness invocation, 1 second later. -/
def authEnv2 : AuthEnv :=
  { now := 11000, currentPath := "/", sdkAuthenticated := false,
    loginResult := some (some "t2"), setupApi := SetupApiOutcome.required }

/-- Witness for C4: concretely, the first call navigates to `/setup` and
the second call one second later is suppressed with a success result. -/
theorem setup_redirect_guard_witness :
    (checkNativeAuth authEnv1 authStorage0).2.2 = ["/setup"] ∧
    checkNativeAuth authEnv2 (checkNativeAuth authEnv1 authStorage0).2.1 =
      (true, (checkNativeAuth authEnv1 authStorage0).2.1, []) :=
  setup_redirect_guard.2 authEnv1 authEnv2 authStorage0 (by decide)
